import Mathlib

/-!
Verification of the history-mining and scoring pipeline of
AnalyzeProjectCode (src/git_analyzer.py and src/author_quality_scorer.py),
as a shallow embedding in Lean.  Python floats on these code paths carry
exact decimal/rational values, so they are modelled by `ℚ`; Python's
`round(x, d)` (round half to even) is modelled by `roundTo`; `int(x)` on a
nonnegative value is modelled by `Int.floor`; Python's stable `sorted` /
`list.sort` is modelled by `List.mergeSort`.
-/

namespace AnalyzeProjectCode

/-- Round half to even on rationals: the idealisation of Python's
`round(x)` for the exact values carried on these code paths. -/
def rhe (q : ℚ) : ℤ :=
  let f := ⌊q⌋
  let r := q - f
  if r < 1/2 then f
  else if 1/2 < r then f + 1
  else if f % 2 = 0 then f else f + 1

/-- Python `round(x, d)`: round `x * 10^d` half to even, scale back. -/
def roundTo (d : ℕ) (q : ℚ) : ℚ := (rhe (q * 10 ^ d) : ℚ) / 10 ^ d

theorem rhe_intCast (k : ℤ) : rhe (k : ℚ) = k := by
  unfold rhe
  norm_num

theorem roundTo_intCast (d : ℕ) (k : ℤ) : roundTo d (k : ℚ) = k := by
  unfold roundTo
  have h1 : ((k : ℚ) * 10 ^ d) = ((k * 10 ^ d : ℤ) : ℚ) := by push_cast; ring
  rw [h1, rhe_intCast]
  have h10 : ((10 : ℚ) ^ d) ≠ 0 := by positivity
  push_cast
  field_simp

/-- The per-author metric bundle produced by
`GitAnalyzer._prepare_author_quality_data` and consumed by
`AuthorQualityScorer` (the `author_quality_data[author]` dict). -/
structure AuthorData where
  total_commits : ℕ
  files_modified : ℕ
  active_days : ℚ
  avg_files_per_commit : ℚ
  avg_message_length : ℚ
  avg_commit_interval : ℚ
  days_since_last_commit : ℚ
  file_concentration : ℚ
  hotspot_participation : ℚ
  contribution_ratio : ℚ
  total_code_changes : ℤ
  rapid_rework_ratio : ℚ
  rapid_rework_count : ℕ
  total_file_modifications : ℕ
  deriving DecidableEq

/-! ### AuthorQualityScorer (src/author_quality_scorer.py) -/

/-- `_score_commit_behavior`, part 1: points for `avg_files_per_commit`. -/
def filesPerCommitPoints (v : ℚ) : ℚ :=
  if 1 ≤ v ∧ v ≤ 3 then 20
  else if 3 < v ∧ v ≤ 6 then 18
  else if (1/2 ≤ v ∧ v < 1) ∨ (6 < v ∧ v ≤ 10) then 15
  else if 10 < v ∧ v ≤ 15 then 10
  else 5

/-- `_score_commit_behavior`, part 2: points for `days_since_last_commit`. -/
def recencyPoints (v : ℚ) : ℚ :=
  if v ≤ 30 then 5 else if v ≤ 90 then 3 else 1

/-- `_score_commit_behavior`, part 3: points for `avg_message_length`. -/
def messagePoints (v : ℚ) : ℚ :=
  if 20 ≤ v then 15 else if 10 ≤ v then 11 else 5

/-- `AuthorQualityScorer._score_commit_behavior`. -/
def score_commit_behavior (d : AuthorData) : ℚ :=
  min (filesPerCommitPoints d.avg_files_per_commit
       + recencyPoints d.days_since_last_commit
       + messagePoints d.avg_message_length) 40

/-- `_score_quality_and_scope`, part 1: points for `files_modified`. -/
def breadthPoints (v : ℕ) : ℚ :=
  if 50 ≤ v then 8 else if 30 ≤ v then 7 else if 15 ≤ v then 5
  else if 5 ≤ v then 3 else 1

/-- `_score_quality_and_scope`, part 2: points for `total_code_changes`. -/
def volumePoints (v : ℤ) : ℚ :=
  if 10000 ≤ v then 7 else if 5000 ≤ v then 6 else if 2000 ≤ v then 4
  else if 500 ≤ v then 2 else 1

/-- `_score_quality_and_scope`, part 3: points for `rapid_rework_ratio`. -/
def reworkPoints (v : ℚ) : ℚ :=
  if v ≤ 10 then 15 else if v ≤ 20 then 12 else if v ≤ 30 then 9
  else if v ≤ 50 then 5 else 2

/-- `AuthorQualityScorer._score_quality_and_scope`. -/
def score_quality_and_scope (d : AuthorData) : ℚ :=
  min (breadthPoints d.files_modified
       + volumePoints d.total_code_changes
       + reworkPoints d.rapid_rework_ratio) 30

/-- `_score_activity`, part 1: points for `files_modified`. -/
def activityFilesPoints (v : ℕ) : ℚ :=
  if 50 ≤ v then 10 else if 30 ≤ v then 8 else if 10 ≤ v then 6 else 3

/-- `_score_activity`, part 2: points for `active_days`. -/
def activeDaysPoints (v : ℚ) : ℚ :=
  if 180 ≤ v then 10 else if 90 ≤ v then 8 else if 30 ≤ v then 6 else 3

/-- `_score_activity`, part 3: points for `contribution_ratio`. -/
def contributionPoints (v : ℚ) : ℚ :=
  if 30 ≤ v then 10 else if 15 ≤ v then 8 else if 5 ≤ v then 6 else 3

/-- `AuthorQualityScorer._score_activity`. -/
def score_activity (d : AuthorData) : ℚ :=
  min (activityFilesPoints d.files_modified
       + activeDaysPoints d.active_days
       + contributionPoints d.contribution_ratio) 30

/-- `AuthorQualityScorer._determine_grade`. -/
def determine_grade (t : ℚ) : String :=
  if 90 ≤ t then "S"
  else if 80 ≤ t then "A"
  else if 70 ≤ t then "B"
  else if 60 ≤ t then "C"
  else "D"

/-- One entry of the list built by `AuthorQualityScorer.calculate_scores`. -/
structure ScoredAuthor where
  author : String
  total_score : ℚ
  grade : String
  commit_behavior : ℚ
  quality_and_scope : ℚ
  activity : ℚ
  metrics : AuthorData
  deriving DecidableEq

/-- The dict appended for one author inside `calculate_scores`. -/
def scoreEntry (author : String) (d : AuthorData) : ScoredAuthor :=
  let cb := score_commit_behavior d
  let qs := score_quality_and_scope d
  let act := score_activity d
  let total := cb + qs + act
  { author := author
    total_score := roundTo 1 total
    grade := determine_grade total
    commit_behavior := roundTo 1 cb
    quality_and_scope := roundTo 1 qs
    activity := roundTo 1 act
    metrics := d }

/-- `AuthorQualityScorer.calculate_scores`: score every author of the
(insertion-ordered) input dict, then `list.sort(key=total_score,
reverse=True)` — a stable descending sort, modelled by `mergeSort`. -/
def calculate_scores (data : List (String × AuthorData)) : List ScoredAuthor :=
  (data.map fun p => scoreEntry p.1 p.2).mergeSort
    fun a b => decide (b.total_score ≤ a.total_score)

/-! ### GitAnalyzer (src/git_analyzer.py) -/

/-- One entry of `author_commit_details[author]` (timestamp, stripped
message, count of retained changed files). -/
structure CommitDetail where
  timestamp : ℤ
  message : String
  files_count : ℕ
  deriving DecidableEq

/-- The hotspot file list of `_prepare_author_quality_data` (lines
400-403): `sorted(all_file_changes.keys(), key=count, reverse=True)` cut
to `max(1, int(total_files * 0.2))` entries.  The dict is modelled as an
insertion-ordered association list with distinct keys; `int(n * 0.2)`
computes `n // 5` for every feasible `n`, modelled as `n / 5` on `ℕ`. -/
def hotspotFiles (all_file_changes : List (String × ℕ)) : List String :=
  let total_files := all_file_changes.length
  let top_20_percent_count := max 1 (total_files / 5)
  ((all_file_changes.mergeSort fun a b => decide (b.2 ≤ a.2)).map
    Prod.fst).take top_20_percent_count

/-- The body of the rapid-rework loop of `_prepare_author_quality_data`
(lines 422-442): per file, skip timelines of length ≤ 1, sort the
timestamps, and over consecutive pairs count every pair into
`total_file_modifications` and the pairs with gap ≤ 5 days into
`rapid_rework_count`. -/
def reworkFold (author_timeline : List (String × List ℤ)) : ℕ × ℕ :=
  author_timeline.foldl
    (fun acc p =>
      if p.2.length ≤ 1 then acc
      else
        let st := p.2.mergeSort fun a b => decide (a ≤ b)
        let pairs := st.zip st.tail
        (acc.1 + (pairs.filter fun q =>
            decide (((q.2 - q.1 : ℤ) : ℚ) / 86400 ≤ 5)).length,
         acc.2 + pairs.length))
    (0, 0)

/-- The local `sorted_commits` of `_prepare_author_quality_data`
(line 368): `sorted(commits, key=timestamp)`, a stable sort. -/
def sortedCommits (commits : List CommitDetail) : List CommitDetail :=
  commits.mergeSort fun a b => decide (a.timestamp ≤ b.timestamp)

/-- The local `first_commit_time` (line 371): `sorted_commits[0]`. -/
def firstCommitTime (commits : List CommitDetail) : ℤ :=
  ((sortedCommits commits).map (·.timestamp)).headD 0

/-- The local `last_commit_time` (line 372): `sorted_commits[-1]`. -/
def lastCommitTime (commits : List CommitDetail) : ℤ :=
  ((sortedCommits commits).map (·.timestamp)).getLastD 0

/-- The local `active_days` before rounding (line 373). -/
def activeDaysRaw (commits : List CommitDetail) : ℚ :=
  max 1 (((lastCommitTime commits - firstCommitTime commits : ℤ) : ℚ) / 86400)

/-- The local `avg_files_per_commit` before rounding (lines 376-377). -/
def avgFilesPerCommitRaw (commits : List CommitDetail) : ℚ :=
  if 0 < commits.length then
    ((commits.map (·.files_count)).sum : ℚ) / commits.length
  else 0

/-- The local `avg_message_length` before rounding (line 380). -/
def avgMessageLengthRaw (commits : List CommitDetail) : ℚ :=
  if 0 < commits.length then
    ((commits.map fun c => (c.message.length : ℚ)).sum) / commits.length
  else 0

/-- The local `avg_commit_interval` before rounding (line 383). -/
def avgCommitIntervalRaw (commits : List CommitDetail) : ℚ :=
  if 1 < commits.length then activeDaysRaw commits / commits.length
  else activeDaysRaw commits

/-- The local `days_since_last_commit` before rounding (lines 386-388);
`current_time` is the `time.time()` sample. -/
def daysSinceLastCommitRaw (commits : List CommitDetail)
    (current_time : ℤ) : ℚ :=
  ((current_time - lastCommitTime commits : ℤ) : ℚ) / 86400

/-- The local `file_concentration` before rounding (lines 394-398). -/
def fileConcentrationRaw (author_files : List (String × ℕ)) : ℚ :=
  let sorted_author_files :=
    (author_files.map Prod.snd).mergeSort fun a b => decide (b ≤ a)
  let top_10_changes :=
    if 0 < sorted_author_files.length then (sorted_author_files.take 10).sum
    else 0
  let total_author_changes :=
    if 0 < sorted_author_files.length then sorted_author_files.sum else 1
  if 0 < total_author_changes then
    (top_10_changes : ℚ) / total_author_changes * 100
  else 0

/-- The local `hotspot_participation` before rounding (lines 405-406):
`hotspot_changes` counts the author's distinct touched files that fall
in the hotspot set, and is divided by `files_modified`. -/
def hotspotParticipationRaw (author_files : List (String × ℕ))
    (all_file_changes : List (String × ℕ)) : ℚ :=
  let hotspot_changes :=
    (author_files.filter fun p =>
      (hotspotFiles all_file_changes).contains p.1).length
  if 0 < author_files.length then
    (hotspot_changes : ℚ) / author_files.length * 100
  else 0

/-- The local `contribution_ratio` before rounding (line 409). -/
def contributionRatioRaw (commits : List CommitDetail)
    (total_commits : ℕ) : ℚ :=
  if 0 < total_commits then (commits.length : ℚ) / total_commits * 100
  else 0

/-- The local `author_total_changes` (lines 411-420):
`int(total_insertions * share) + int(total_deletions * share)` with
`share = len(commits) / total_commits`, each term truncated by `int()`
(equal to the floor, the values being nonnegative), or 0 when
`total_commits` is 0. -/
def authorTotalChanges (commits : List CommitDetail)
    (total_commits total_insertions total_deletions : ℕ) : ℤ :=
  (if 0 < total_commits then
    ⌊(total_insertions : ℚ) * ((commits.length : ℚ) / total_commits)⌋
  else 0) +
  (if 0 < total_commits then
    ⌊(total_deletions : ℚ) * ((commits.length : ℚ) / total_commits)⌋
  else 0)

/-- The local `rapid_rework_ratio` before rounding (line 445). -/
def rapidReworkRatioRaw (author_timeline : List (String × List ℤ)) : ℚ :=
  if 0 < (reworkFold author_timeline).2 then
    ((reworkFold author_timeline).1 : ℚ) / (reworkFold author_timeline).2
      * 100
  else 0

/-- The per-author body of `GitAnalyzer._prepare_author_quality_data`
(lines 363-462).  `author_files` is `author_file_changes[author]`,
`author_timeline` is `author_file_timeline[author]` reduced to its
timestamp lists, `current_time` is the `time.time()` sample.  An author
with no commit details is skipped (`None`). -/
def prepareAuthor (commits : List CommitDetail)
    (author_files : List (String × ℕ))
    (author_timeline : List (String × List ℤ))
    (all_file_changes : List (String × ℕ))
    (total_commits total_insertions total_deletions : ℕ)
    (current_time : ℤ) : Option AuthorData :=
  if commits.isEmpty then none
  else
    some
      { total_commits := commits.length
        files_modified := author_files.length
        active_days := roundTo 1 (activeDaysRaw commits)
        avg_files_per_commit := roundTo 2 (avgFilesPerCommitRaw commits)
        avg_message_length := roundTo 1 (avgMessageLengthRaw commits)
        avg_commit_interval := roundTo 2 (avgCommitIntervalRaw commits)
        days_since_last_commit :=
          roundTo 1 (daysSinceLastCommitRaw commits current_time)
        file_concentration := roundTo 1 (fileConcentrationRaw author_files)
        hotspot_participation :=
          roundTo 1 (hotspotParticipationRaw author_files all_file_changes)
        contribution_ratio :=
          roundTo 1 (contributionRatioRaw commits total_commits)
        total_code_changes :=
          authorTotalChanges commits total_commits total_insertions
            total_deletions
        rapid_rework_ratio := roundTo 1 (rapidReworkRatioRaw author_timeline)
        rapid_rework_count := (reworkFold author_timeline).1
        total_file_modifications := (reworkFold author_timeline).2 }

/-- A commit record as `GitAnalyzer.analyze` consumes it: author name,
commit time, whether it has a parent, the retained changed paths of the
diff against the first parent, and the aggregate diff stat
(insertions, deletions) when `commit.stats.total` is available. -/
structure Commit where
  author : String
  timestamp : ℤ
  message : String
  hasParent : Bool
  changedFiles : List String
  stats : Option (ℕ × ℕ)
  deriving DecidableEq

/-- The insertion/deletion accumulation of `GitAnalyzer.analyze` (lines
93-119): the stat block runs only inside `if commit.parents:`, adds the
aggregate stat when it is available, and on an unavailable stat the
`except: pass` keeps the totals unchanged and moves on. -/
def analyzeTotals (commits : List Commit) : ℕ × ℕ :=
  commits.foldl
    (fun acc c =>
      if c.hasParent then
        match c.stats with
        | some s => (acc.1 + s.1, acc.2 + s.2)
        | none => acc
      else acc)
    (0, 0)

/-! ### `GitAnalyzer._is_excluded_file` (lines 238-275)

String primitives are modelled on the character list: Python's
`s.replace('\\', '/')` maps each backslash to a slash,
`os.path.basename` keeps everything after the last `/`, and `s.strip()`
drops leading and trailing whitespace. -/

/-- `file_path.replace('\\', '/')`. -/
def pyNormalize (s : String) : String :=
  String.mk (s.data.map fun c => if c = '\\' then '/' else c)

/-- `os.path.basename` on a slash-normalized path. -/
def pyBasename (s : String) : String :=
  String.mk ((s.data.reverse.takeWhile fun c => c ≠ '/').reverse)

/-- Python `str.strip()` with no argument. -/
def pyStrip (s : String) : String :=
  String.mk
    (((s.data.dropWhile Char.isWhitespace).reverse.dropWhile
      Char.isWhitespace).reverse)

/-- `GitAnalyzer._is_excluded_file`: only the exact-basename branch is
live; the substring and suffix branches are commented out in the
source. -/
def is_excluded_file (exclude_files : List String) (file_path : String) :
    Bool :=
  if exclude_files.isEmpty then false
  else
    let normalized_path := pyNormalize file_path
    let file_name := pyBasename normalized_path
    exclude_files.any fun ex =>
      let ex := pyStrip ex
      if ex = "" then false
      else pyNormalize ex = file_name

/-! ### Helper lemmas -/

theorem roundTo_natCast (d : ℕ) (n : ℕ) : roundTo d (n : ℚ) = n := by
  simpa using roundTo_intCast d (n : ℤ)

theorem filesPerCommitPoints_spec (v : ℚ) :
    ∃ n : ℕ, filesPerCommitPoints v = n ∧ 5 ≤ n ∧ n ≤ 20 := by
  unfold filesPerCommitPoints
  split_ifs
  exacts [⟨20, by norm_num⟩, ⟨18, by norm_num⟩, ⟨15, by norm_num⟩,
    ⟨10, by norm_num⟩, ⟨5, by norm_num⟩]

theorem recencyPoints_spec (v : ℚ) :
    ∃ n : ℕ, recencyPoints v = n ∧ 1 ≤ n ∧ n ≤ 5 := by
  unfold recencyPoints
  split_ifs
  exacts [⟨5, by norm_num⟩, ⟨3, by norm_num⟩, ⟨1, by norm_num⟩]

theorem messagePoints_spec (v : ℚ) :
    ∃ n : ℕ, messagePoints v = n ∧ 5 ≤ n ∧ n ≤ 15 := by
  unfold messagePoints
  split_ifs
  exacts [⟨15, by norm_num⟩, ⟨11, by norm_num⟩, ⟨5, by norm_num⟩]

theorem breadthPoints_spec (v : ℕ) :
    ∃ n : ℕ, breadthPoints v = n ∧ 1 ≤ n ∧ n ≤ 8 := by
  unfold breadthPoints
  split_ifs
  exacts [⟨8, by norm_num⟩, ⟨7, by norm_num⟩, ⟨5, by norm_num⟩,
    ⟨3, by norm_num⟩, ⟨1, by norm_num⟩]

theorem volumePoints_spec (v : ℤ) :
    ∃ n : ℕ, volumePoints v = n ∧ 1 ≤ n ∧ n ≤ 7 := by
  unfold volumePoints
  split_ifs
  exacts [⟨7, by norm_num⟩, ⟨6, by norm_num⟩, ⟨4, by norm_num⟩,
    ⟨2, by norm_num⟩, ⟨1, by norm_num⟩]

theorem reworkPoints_spec (v : ℚ) :
    ∃ n : ℕ, reworkPoints v = n ∧ 2 ≤ n ∧ n ≤ 15 := by
  unfold reworkPoints
  split_ifs
  exacts [⟨15, by norm_num⟩, ⟨12, by norm_num⟩, ⟨9, by norm_num⟩,
    ⟨5, by norm_num⟩, ⟨2, by norm_num⟩]

theorem activityFilesPoints_spec (v : ℕ) :
    ∃ n : ℕ, activityFilesPoints v = n ∧ 3 ≤ n ∧ n ≤ 10 := by
  unfold activityFilesPoints
  split_ifs
  exacts [⟨10, by norm_num⟩, ⟨8, by norm_num⟩, ⟨6, by norm_num⟩,
    ⟨3, by norm_num⟩]

theorem activeDaysPoints_spec (v : ℚ) :
    ∃ n : ℕ, activeDaysPoints v = n ∧ 3 ≤ n ∧ n ≤ 10 := by
  unfold activeDaysPoints
  split_ifs
  exacts [⟨10, by norm_num⟩, ⟨8, by norm_num⟩, ⟨6, by norm_num⟩,
    ⟨3, by norm_num⟩]

theorem contributionPoints_spec (v : ℚ) :
    ∃ n : ℕ, contributionPoints v = n ∧ 3 ≤ n ∧ n ≤ 10 := by
  unfold contributionPoints
  split_ifs
  exacts [⟨10, by norm_num⟩, ⟨8, by norm_num⟩, ⟨6, by norm_num⟩,
    ⟨3, by norm_num⟩]

theorem score_commit_behavior_spec (d : AuthorData) :
    ∃ n : ℕ, score_commit_behavior d = n ∧ n ≤ 40 := by
  obtain ⟨a, ha, -, -⟩ := filesPerCommitPoints_spec d.avg_files_per_commit
  obtain ⟨b, hb, -, -⟩ := recencyPoints_spec d.days_since_last_commit
  obtain ⟨c, hc, -, -⟩ := messagePoints_spec d.avg_message_length
  refine ⟨min (a + b + c) 40, ?_, min_le_right _ _⟩
  unfold score_commit_behavior
  rw [ha, hb, hc]
  norm_cast

theorem score_quality_and_scope_spec (d : AuthorData) :
    ∃ n : ℕ, score_quality_and_scope d = n ∧ n ≤ 30 := by
  obtain ⟨a, ha, -, -⟩ := breadthPoints_spec d.files_modified
  obtain ⟨b, hb, -, -⟩ := volumePoints_spec d.total_code_changes
  obtain ⟨c, hc, -, -⟩ := reworkPoints_spec d.rapid_rework_ratio
  refine ⟨min (a + b + c) 30, ?_, min_le_right _ _⟩
  unfold score_quality_and_scope
  rw [ha, hb, hc]
  norm_cast

theorem score_activity_spec (d : AuthorData) :
    ∃ n : ℕ, score_activity d = n ∧ n ≤ 30 := by
  obtain ⟨a, ha, -, -⟩ := activityFilesPoints_spec d.files_modified
  obtain ⟨b, hb, -, -⟩ := activeDaysPoints_spec d.active_days
  obtain ⟨c, hc, -, -⟩ := contributionPoints_spec d.contribution_ratio
  refine ⟨min (a + b + c) 30, ?_, min_le_right _ _⟩
  unfold score_activity
  rw [ha, hb, hc]
  norm_cast

theorem roundTo_zero (d : ℕ) : roundTo d 0 = 0 := by
  simpa using roundTo_intCast d 0

theorem roundTo_one (d : ℕ) : roundTo d 1 = 1 := by
  simpa using roundTo_intCast d 1

theorem prepareAuthor_eq_some {commits : List CommitDetail}
    {af : List (String × ℕ)} {atl : List (String × List ℤ)}
    {all : List (String × ℕ)} {tc ti td : ℕ} {ct : ℤ} {d : AuthorData}
    (h : prepareAuthor commits af atl all tc ti td ct = some d) :
    commits ≠ [] ∧
    d.total_commits = commits.length ∧
    d.files_modified = af.length ∧
    d.active_days = roundTo 1 (activeDaysRaw commits) ∧
    d.avg_files_per_commit = roundTo 2 (avgFilesPerCommitRaw commits) ∧
    d.avg_message_length = roundTo 1 (avgMessageLengthRaw commits) ∧
    d.avg_commit_interval = roundTo 2 (avgCommitIntervalRaw commits) ∧
    d.days_since_last_commit = roundTo 1 (daysSinceLastCommitRaw commits ct) ∧
    d.file_concentration = roundTo 1 (fileConcentrationRaw af) ∧
    d.hotspot_participation = roundTo 1 (hotspotParticipationRaw af all) ∧
    d.contribution_ratio = roundTo 1 (contributionRatioRaw commits tc) ∧
    d.total_code_changes = authorTotalChanges commits tc ti td ∧
    d.rapid_rework_ratio = roundTo 1 (rapidReworkRatioRaw atl) ∧
    d.rapid_rework_count = (reworkFold atl).1 ∧
    d.total_file_modifications = (reworkFold atl).2 := by
  unfold prepareAuthor at h
  by_cases hc : commits.isEmpty
  · rw [if_pos hc] at h
    exact absurd h (by simp)
  · rw [if_neg hc, Option.some.injEq] at h
    subst h
    exact ⟨by simpa [List.isEmpty_iff] using hc, rfl, rfl, rfl, rfl, rfl,
      rfl, rfl, rfl, rfl, rfl, rfl, rfl, rfl, rfl⟩

theorem sortedCommits_pairwise (commits : List CommitDetail) :
    (sortedCommits commits).Pairwise
      (fun a b => a.timestamp ≤ b.timestamp) := by
  have h := @List.sorted_mergeSort CommitDetail
      (fun a b : CommitDetail => decide (a.timestamp ≤ b.timestamp))
      (by intro a b c h1 h2
          simp only [decide_eq_true_eq] at *
          exact le_trans h1 h2)
      (by intro a b
          simp only [Bool.or_eq_true, decide_eq_true_eq]
          exact le_total _ _)
      commits
  exact h.imp fun hab => of_decide_eq_true hab

theorem sortedCommits_ne_nil {commits : List CommitDetail}
    (h : commits ≠ []) : sortedCommits commits ≠ [] := by
  intro h0
  apply h
  have := @List.length_mergeSort CommitDetail
    (fun a b : CommitDetail => decide (a.timestamp ≤ b.timestamp)) commits
  rw [← sortedCommits, h0] at this
  exact List.length_eq_zero.mp this.symm

theorem firstCommitTime_eq_head {commits : List CommitDetail}
    (h : commits ≠ []) :
    firstCommitTime commits =
      ((sortedCommits commits).head (sortedCommits_ne_nil h)).timestamp := by
  unfold firstCommitTime
  rw [List.headD_eq_head?_getD, List.head?_map,
    List.head?_eq_head (sortedCommits_ne_nil h)]
  rfl

theorem lastCommitTime_eq_getLast {commits : List CommitDetail}
    (h : commits ≠ []) :
    lastCommitTime commits =
      ((sortedCommits commits).getLast
        (sortedCommits_ne_nil h)).timestamp := by
  unfold lastCommitTime
  rw [List.getLastD_eq_getLast?, List.getLast?_map,
    List.getLast?_eq_getLast _ (sortedCommits_ne_nil h)]
  rfl

theorem head_timestamp_le {l : List CommitDetail}
    (hs : l.Pairwise (fun a b => a.timestamp ≤ b.timestamp)) (hne : l ≠ [])
    {c : CommitDetail} (hc : c ∈ l) :
    (l.head hne).timestamp ≤ c.timestamp := by
  cases l with
  | nil => exact absurd rfl hne
  | cons a t =>
    rcases List.mem_cons.mp hc with rfl | hct
    · exact le_refl _
    · exact List.rel_of_pairwise_cons hs hct

theorem head_timestamp_ge {l : List CommitDetail}
    (hs : l.Pairwise (fun a b => b.timestamp ≤ a.timestamp)) (hne : l ≠ [])
    {c : CommitDetail} (hc : c ∈ l) :
    c.timestamp ≤ (l.head hne).timestamp := by
  cases l with
  | nil => exact absurd rfl hne
  | cons a t =>
    rcases List.mem_cons.mp hc with rfl | hct
    · exact le_refl _
    · exact List.rel_of_pairwise_cons hs hct

theorem timestamp_le_getLast {l : List CommitDetail}
    (hs : l.Pairwise (fun a b => a.timestamp ≤ b.timestamp)) (hne : l ≠ [])
    {c : CommitDetail} (hc : c ∈ l) :
    c.timestamp ≤ (l.getLast hne).timestamp := by
  rw [List.getLast_eq_head_reverse]
  have hrev : l.reverse.Pairwise (fun a b => b.timestamp ≤ a.timestamp) :=
    List.pairwise_reverse.mpr hs
  exact head_timestamp_ge hrev (by simpa using hne) (by simpa using hc)

/-! ### Claim theorems -/

/-- C1: for every author in the scored output, the reported `total_score`
equals the sum of the three reported sub-scores, each sub-score lies in
its declared ceiling range (`commit_behavior` in [0,40],
`quality_and_scope` in [0,30], `activity` in [0,30]), and hence
`total_score ≤ 100`. -/
theorem C1_total_is_sum_of_bounded_subscores
    (data : List (String × AuthorData)) (e : ScoredAuthor)
    (he : e ∈ calculate_scores data) :
    e.total_score = e.commit_behavior + e.quality_and_scope + e.activity ∧
    0 ≤ e.commit_behavior ∧ e.commit_behavior ≤ 40 ∧
    0 ≤ e.quality_and_scope ∧ e.quality_and_scope ≤ 30 ∧
    0 ≤ e.activity ∧ e.activity ≤ 30 ∧
    e.total_score ≤ 100 := by
  rw [calculate_scores, List.mem_mergeSort, List.mem_map] at he
  obtain ⟨p, -, rfl⟩ := he
  obtain ⟨a, ha, ha40⟩ := score_commit_behavior_spec p.2
  obtain ⟨b, hb, hb30⟩ := score_quality_and_scope_spec p.2
  obtain ⟨c, hc, hc30⟩ := score_activity_spec p.2
  simp only [scoreEntry, ha, hb, hc]
  have hsum : ((a : ℚ) + b + c) = ((a + b + c : ℕ) : ℚ) := by push_cast; ring
  rw [hsum, roundTo_natCast, roundTo_natCast, roundTo_natCast, roundTo_natCast]
  refine ⟨by push_cast; ring, by positivity, by exact_mod_cast ha40,
    by positivity, by exact_mod_cast hb30, by positivity,
    by exact_mod_cast hc30, ?_⟩
  have : a + b + c ≤ 100 := by omega
  exact_mod_cast this

/-- Witness for C1 at a concrete single-author input. -/
theorem C1_witness :
    (scoreEntry "a" ⟨1, 0, 1, 2, 25, 1, 10, 0, 0, 50, 20000, 0, 0, 0⟩).total_score
        = (scoreEntry "a" ⟨1, 0, 1, 2, 25, 1, 10, 0, 0, 50, 20000, 0, 0, 0⟩).commit_behavior
          + (scoreEntry "a" ⟨1, 0, 1, 2, 25, 1, 10, 0, 0, 50, 20000, 0, 0, 0⟩).quality_and_scope
          + (scoreEntry "a" ⟨1, 0, 1, 2, 25, 1, 10, 0, 0, 50, 20000, 0, 0, 0⟩).activity ∧
    0 ≤ (scoreEntry "a" ⟨1, 0, 1, 2, 25, 1, 10, 0, 0, 50, 20000, 0, 0, 0⟩).commit_behavior ∧
    (scoreEntry "a" ⟨1, 0, 1, 2, 25, 1, 10, 0, 0, 50, 20000, 0, 0, 0⟩).commit_behavior ≤ 40 ∧
    0 ≤ (scoreEntry "a" ⟨1, 0, 1, 2, 25, 1, 10, 0, 0, 50, 20000, 0, 0, 0⟩).quality_and_scope ∧
    (scoreEntry "a" ⟨1, 0, 1, 2, 25, 1, 10, 0, 0, 50, 20000, 0, 0, 0⟩).quality_and_scope ≤ 30 ∧
    0 ≤ (scoreEntry "a" ⟨1, 0, 1, 2, 25, 1, 10, 0, 0, 50, 20000, 0, 0, 0⟩).activity ∧
    (scoreEntry "a" ⟨1, 0, 1, 2, 25, 1, 10, 0, 0, 50, 20000, 0, 0, 0⟩).activity ≤ 30 ∧
    (scoreEntry "a" ⟨1, 0, 1, 2, 25, 1, 10, 0, 0, 50, 20000, 0, 0, 0⟩).total_score ≤ 100 :=
  C1_total_is_sum_of_bounded_subscores
    [("a", ⟨1, 0, 1, 2, 25, 1, 10, 0, 0, 50, 20000, 0, 0, 0⟩)]
    (scoreEntry "a" ⟨1, 0, 1, 2, 25, 1, 10, 0, 0, 50, 20000, 0, 0, 0⟩)
    (by simp [calculate_scores])

/-- C2: the grade is a pure total function of the numeric total with
inclusive lower bounds: `t ≥ 90 → S`, `80 ≤ t < 90 → A`, `70 ≤ t < 80 → B`,
`60 ≤ t < 70 → C`, `t < 60 → D`; in particular 90 grades S and 89.9
grades A. -/
theorem C2_grade_bands :
    (∀ t : ℚ,
      (determine_grade t = "S" ↔ 90 ≤ t) ∧
      (determine_grade t = "A" ↔ 80 ≤ t ∧ t < 90) ∧
      (determine_grade t = "B" ↔ 70 ≤ t ∧ t < 80) ∧
      (determine_grade t = "C" ↔ 60 ≤ t ∧ t < 70) ∧
      (determine_grade t = "D" ↔ t < 60)) ∧
    determine_grade 90 = "S" ∧ determine_grade (899/10) = "A" := by
  refine ⟨fun t => ?_, by norm_num [determine_grade],
    by norm_num [determine_grade]⟩
  unfold determine_grade
  split_ifs with h1 h2 h3 h4 <;>
    refine ⟨?_, ?_, ?_, ?_, ?_⟩ <;> simp_all <;> intros <;> linarith

/-- C9: the scored author list is a permutation of the scored input
entries, sorted by total score descending, and any two entries with
equal total scores keep their relative input (encounter) order. -/
theorem C9_sorted_descending_stable (data : List (String × AuthorData)) :
    (calculate_scores data).Pairwise
      (fun a b => b.total_score ≤ a.total_score) ∧
    (calculate_scores data).Perm (data.map fun p => scoreEntry p.1 p.2) ∧
    ∀ x y : ScoredAuthor,
      [x, y].Sublist (data.map fun p => scoreEntry p.1 p.2) →
      x.total_score = y.total_score →
      [x, y].Sublist (calculate_scores data) := by
  have trans : ∀ a b c : ScoredAuthor,
      decide (b.total_score ≤ a.total_score) = true →
      decide (c.total_score ≤ b.total_score) = true →
      decide (c.total_score ≤ a.total_score) = true := by
    intro a b c h1 h2
    simp only [decide_eq_true_eq] at *
    exact le_trans h2 h1
  have total : ∀ a b : ScoredAuthor,
      (decide (b.total_score ≤ a.total_score)
        || decide (a.total_score ≤ b.total_score)) = true := by
    intro a b
    simp only [Bool.or_eq_true, decide_eq_true_eq]
    exact le_total _ _
  refine ⟨?_, ?_, ?_⟩
  · have h := List.sorted_mergeSort trans total
        (data.map fun p => scoreEntry p.1 p.2)
    rw [calculate_scores]
    exact h.imp fun hab => of_decide_eq_true hab
  · exact List.mergeSort_perm _ _
  · intro x y hsub heq
    rw [calculate_scores]
    exact List.pair_sublist_mergeSort trans total
      (decide_eq_true (le_of_eq heq.symm)) hsub

/-- Witness for C9: two authors with identical metrics tie on total
score and keep their input order in the sorted output. -/
theorem C9_witness :
    [scoreEntry "a" ⟨1, 0, 1, 2, 25, 1, 10, 0, 0, 50, 20000, 0, 0, 0⟩,
     scoreEntry "b" ⟨1, 0, 1, 2, 25, 1, 10, 0, 0, 50, 20000, 0, 0, 0⟩].Sublist
      (calculate_scores
        [("a", ⟨1, 0, 1, 2, 25, 1, 10, 0, 0, 50, 20000, 0, 0, 0⟩),
         ("b", ⟨1, 0, 1, 2, 25, 1, 10, 0, 0, 50, 20000, 0, 0, 0⟩)]) :=
  (C9_sorted_descending_stable
    [("a", ⟨1, 0, 1, 2, 25, 1, 10, 0, 0, 50, 20000, 0, 0, 0⟩),
     ("b", ⟨1, 0, 1, 2, 25, 1, 10, 0, 0, 50, 20000, 0, 0, 0⟩)]).2.2
    _ _ (by simp) rfl

/-- C8 counterexample: a parentless (root) commit whose aggregate diff
stat is available contributes nothing to the totals, because the stat
block only runs for commits with a parent; the claim, as stated, would
have the totals incremented to (5, 3). -/
theorem C8_counterexample :
    analyzeTotals [⟨"A", 0, "m", false, [], some (5, 3)⟩] = (0, 0) ∧
    (⟨"A", 0, "m", false, [], some (5, 3)⟩ : Commit).stats = some (5, 3) ∧
    ((0, 0) : ℕ × ℕ) ≠ (5, 3) :=
  ⟨rfl, rfl, by decide⟩

/-- C8 (amended): over the traversed sequence, each commit with a parent
adds its aggregate diff stat to the insertion/deletion totals when the
stat is available and zero otherwise, and parentless commits add zero;
every commit contributes independently (traversal never aborts), so the
totals are the per-commit contribution sums. -/
theorem C8_amended_totals_sum_contributions (cs : List Commit) :
    analyzeTotals cs =
      ((cs.map fun c =>
          if c.hasParent then (c.stats.getD (0, 0)).1 else 0).sum,
       (cs.map fun c =>
          if c.hasParent then (c.stats.getD (0, 0)).2 else 0).sum) := by
  have aux : ∀ (l : List Commit) (acc : ℕ × ℕ),
      l.foldl
        (fun acc c =>
          if c.hasParent then
            match c.stats with
            | some s => (acc.1 + s.1, acc.2 + s.2)
            | none => acc
          else acc)
        acc =
      (acc.1 + (l.map fun c =>
          if c.hasParent then (c.stats.getD (0, 0)).1 else 0).sum,
       acc.2 + (l.map fun c =>
          if c.hasParent then (c.stats.getD (0, 0)).2 else 0).sum) := by
    intro l
    induction l with
    | nil => intro acc; simp
    | cons c t ih =>
      intro acc
      rw [List.foldl_cons, ih]
      rcases hstats : c.stats with _ | ⟨i, j⟩ <;>
        by_cases hp : c.hasParent <;>
          simp [hp, hstats, Nat.add_assoc]
  rw [analyzeTotals, aux]
  simp

/-- C10: a changed-file path is excluded iff some whitespace-trimmed,
non-empty exclusion token, after normalizing backslashes to slashes,
equals (case-sensitively) the basename of the normalized path; tokens
matching only a substring or only a suffix of the path exclude nothing,
and neither does an all-whitespace token. -/
theorem C10_exclusion_is_exact_basename_match :
    (∀ (exclude_files : List String) (file_path : String),
      is_excluded_file exclude_files file_path = true ↔
        ∃ t ∈ exclude_files, pyStrip t ≠ "" ∧
          pyNormalize (pyStrip t) = pyBasename (pyNormalize file_path)) ∧
    is_excluded_file ["config.json"] "src/config.json" = true ∧
    is_excluded_file ["config.json"] "src\\config.json" = true ∧
    is_excluded_file [" config.json "] "src/config.json" = true ∧
    is_excluded_file ["config"] "src/config.json" = false ∧
    is_excluded_file ["/config.json"] "src/config.json" = false ∧
    is_excluded_file ["  "] "src/config.json" = false ∧
    is_excluded_file ["Config.json"] "src/config.json" = false := by
  refine ⟨fun exclude_files file_path => ?_,
    by decide, by decide, by decide, by decide, by decide, by decide,
    by decide⟩
  rw [is_excluded_file]
  split_ifs with hempty
  · rw [List.isEmpty_iff] at hempty
    subst hempty
    simp
  · simp only [List.any_eq_true]
    constructor
    · rintro ⟨t, ht, hcond⟩
      refine ⟨t, ht, ?_⟩
      by_cases hs : pyStrip t = "" <;> simp [hs] at hcond ⊢
      exact hcond
    · rintro ⟨t, ht, hne, heq⟩
      exact ⟨t, ht, by simp [hne, heq]⟩

/-- Witness for C10: the characterization instantiated at a concrete
token list and path, with the existence hypothesis discharged. -/
theorem C10_witness :
    is_excluded_file ["config.json"] "dir\\sub\\config.json" = true :=
  (C10_exclusion_is_exact_basename_match.1 ["config.json"]
    "dir\\sub\\config.json").mpr ⟨"config.json", by decide, by decide,
      by decide⟩

/-- C7: an author with exactly one retained commit has `active_days = 1`
and `avg_commit_interval = active_days = 1` (no division by zero: the
single-commit branch of the interval computation never divides); more
generally the stored `active_days` is `max(1, (last − first)/86400)`
rounded, where first/last are the minimum/maximum of the author's commit
timestamps (the ends of the timestamp-sorted commit list). -/
theorem C7_single_commit_and_active_days :
    (∀ (c : CommitDetail) (af : List (String × ℕ))
        (atl : List (String × List ℤ)) (all : List (String × ℕ))
        (tc ti td : ℕ) (ct : ℤ) (d : AuthorData),
      prepareAuthor [c] af atl all tc ti td ct = some d →
      d.active_days = 1 ∧ d.avg_commit_interval = 1 ∧
        d.avg_commit_interval = d.active_days) ∧
    (∀ (commits : List CommitDetail) (af : List (String × ℕ))
        (atl : List (String × List ℤ)) (all : List (String × ℕ))
        (tc ti td : ℕ) (ct : ℤ) (d : AuthorData),
      prepareAuthor commits af atl all tc ti td ct = some d →
      ∃ cf ∈ commits, ∃ cl ∈ commits,
        (∀ c ∈ commits,
          cf.timestamp ≤ c.timestamp ∧ c.timestamp ≤ cl.timestamp) ∧
        d.active_days =
          roundTo 1
            (max 1 (((cl.timestamp - cf.timestamp : ℤ) : ℚ) / 86400))) := by
  constructor
  · intro c af atl all tc ti td ct d h
    obtain ⟨-, -, -, had, -, -, hint, -⟩ := prepareAuthor_eq_some h
    have h1 : activeDaysRaw [c] = 1 := by
      unfold activeDaysRaw lastCommitTime firstCommitTime sortedCommits
      norm_num
    have h2 : avgCommitIntervalRaw [c] = 1 := by
      unfold avgCommitIntervalRaw
      norm_num [h1]
    rw [had, hint, h1, h2, roundTo_one, roundTo_one]
    exact ⟨rfl, rfl, rfl⟩
  · intro commits af atl all tc ti td ct d h
    obtain ⟨hne, -, -, had, -⟩ := prepareAuthor_eq_some h
    have hSne := sortedCommits_ne_nil hne
    have hsorted := sortedCommits_pairwise commits
    refine ⟨(sortedCommits commits).head hSne, ?_,
      (sortedCommits commits).getLast hSne, ?_, ?_, ?_⟩
    · exact List.mem_mergeSort.mp (List.head_mem hSne)
    · exact List.mem_mergeSort.mp (List.getLast_mem hSne)
    · intro c hc
      have hcS : c ∈ sortedCommits commits := List.mem_mergeSort.mpr hc
      exact ⟨head_timestamp_le hsorted hSne hcS,
        timestamp_le_getLast hsorted hSne hcS⟩
    · rw [had]
      unfold activeDaysRaw
      rw [firstCommitTime_eq_head hne, lastCommitTime_eq_getLast hne]

/-- Witness for C7 at a concrete single-commit author. -/
theorem C7_witness :
    (prepareAuthor [⟨0, "m", 1⟩] [] [] [] 1 0 0 0).map (·.active_days)
      = some 1 ∧
    (prepareAuthor [⟨0, "m", 1⟩] [] [] [] 1 0 0 0).map (·.avg_commit_interval)
      = some 1 := by
  cases hp : prepareAuthor [⟨0, "m", 1⟩] [] [] [] 1 0 0 0 with
  | none => exact absurd hp (by simp [prepareAuthor])
  | some d =>
    obtain ⟨h1, h2, -⟩ :=
      C7_single_commit_and_active_days.1 ⟨0, "m", 1⟩ [] [] [] 1 0 0 0 d hp
    simp [h1, h2]

/-- C3 counterexample: with 6 distinct files the hotspot set has
`max(1, int(6 * 0.2)) = 1` element, not the ⌈0.2 × 6⌉ = 2 elements the
claim asserts. -/
theorem C3_counterexample :
    (hotspotFiles
      [("a", 40), ("f", 6), ("b", 5), ("c", 3), ("d", 2), ("e", 1)]).length
      = 1 ∧
    ⌈(([("a", 40), ("f", 6), ("b", 5), ("c", 3), ("d", 2), ("e", 1)] :
        List (String × ℕ)).length : ℚ) * (2 / 10)⌉ = 2 := by
  constructor
  · have hs : ([("a", 40), ("f", 6), ("b", 5), ("c", 3), ("d", 2),
        ("e", 1)] : List (String × ℕ)).mergeSort
          (fun a b => decide (b.2 ≤ a.2)) =
        [("a", 40), ("f", 6), ("b", 5), ("c", 3), ("d", 2), ("e", 1)] :=
      List.mergeSort_of_sorted (by decide)
    simp only [hotspotFiles, hs]
    rfl
  · norm_num [Int.ceil_eq_iff]

/-- C3 (amended): for a non-empty global file-change map with n distinct
files the hotspot set has max(1, ⌊0.2 × n⌋) elements (the top of the
stable descending sort by change count), hotspot participation is
100 × (author's distinct touched files in the hotspot set) / (author's
distinct touched files), or 0 with no touched files; in the 5-file
scenario {a:40,b:5,c:3,d:2,e:1} the hotspot set is {a}, an author
touching {b,c} scores 0 and an author touching {a,b} scores 50. -/
theorem C3_amended_hotspot_floor_and_participation :
    (∀ all : List (String × ℕ), all ≠ [] →
      (hotspotFiles all).length = max 1 (all.length / 5)) ∧
    (∀ af all : List (String × ℕ),
      hotspotParticipationRaw af all =
        if af.length = 0 then 0
        else ((af.countP fun p => decide (p.1 ∈ hotspotFiles all)) : ℚ)
          * 100 / af.length) ∧
    hotspotFiles [("a", 40), ("b", 5), ("c", 3), ("d", 2), ("e", 1)]
      = ["a"] ∧
    (prepareAuthor [⟨0, "m", 1⟩] [("b", 1), ("c", 1)] []
      [("a", 40), ("b", 5), ("c", 3), ("d", 2), ("e", 1)] 1 0 0 0).map
        (·.hotspot_participation) = some 0 ∧
    (prepareAuthor [⟨0, "m", 1⟩] [("a", 1), ("b", 1)] []
      [("a", 40), ("b", 5), ("c", 3), ("d", 2), ("e", 1)] 1 0 0 0).map
        (·.hotspot_participation) = some 50 := by
  have h5 : hotspotFiles [("a", 40), ("b", 5), ("c", 3), ("d", 2),
      ("e", 1)] = ["a"] := by
    have hs : ([("a", 40), ("b", 5), ("c", 3), ("d", 2), ("e", 1)] :
        List (String × ℕ)).mergeSort (fun a b => decide (b.2 ≤ a.2)) =
        [("a", 40), ("b", 5), ("c", 3), ("d", 2), ("e", 1)] :=
      List.mergeSort_of_sorted (by decide)
    simp only [hotspotFiles, hs]
    rfl
  refine ⟨?_, ?_, h5, ?_, ?_⟩
  · intro all hne
    simp only [hotspotFiles, List.length_take, List.length_map,
      List.length_mergeSort]
    have h1 : 0 < all.length := List.length_pos.mpr hne
    omega
  · intro af all
    unfold hotspotParticipationRaw
    by_cases haf : af.length = 0
    · simp [haf]
    · have hpos : 0 < af.length := Nat.pos_of_ne_zero haf
      have hfil : (af.filter fun p => (hotspotFiles all).contains p.1) =
          af.filter fun p => decide (p.1 ∈ hotspotFiles all) := by
        apply List.filter_congr
        intro p hp
        simp [List.contains, List.elem_eq_mem]
      simp only [hfil, List.countP_eq_length_filter, if_neg haf, if_pos hpos]
      rw [div_mul_eq_mul_div]
  · cases hp : prepareAuthor [⟨0, "m", 1⟩] [("b", 1), ("c", 1)] []
        [("a", 40), ("b", 5), ("c", 3), ("d", 2), ("e", 1)] 1 0 0 0 with
    | none => exact absurd hp (by simp [prepareAuthor])
    | some d =>
      obtain ⟨-, -, -, -, -, -, -, -, -, hhot, -⟩ := prepareAuthor_eq_some hp
      have hraw : hotspotParticipationRaw [("b", 1), ("c", 1)]
          [("a", 40), ("b", 5), ("c", 3), ("d", 2), ("e", 1)] = 0 := by
        unfold hotspotParticipationRaw
        simp [h5]
      simp [hhot, hraw, roundTo_zero]
  · cases hp : prepareAuthor [⟨0, "m", 1⟩] [("a", 1), ("b", 1)] []
        [("a", 40), ("b", 5), ("c", 3), ("d", 2), ("e", 1)] 1 0 0 0 with
    | none => exact absurd hp (by simp [prepareAuthor])
    | some d =>
      obtain ⟨-, -, -, -, -, -, -, -, -, hhot, -⟩ := prepareAuthor_eq_some hp
      have hraw : hotspotParticipationRaw [("a", 1), ("b", 1)]
          [("a", 40), ("b", 5), ("c", 3), ("d", 2), ("e", 1)] = 50 := by
        unfold hotspotParticipationRaw
        simp [h5]
        norm_num
      have h50 : roundTo 1 (50 : ℚ) = 50 := by
        simpa using roundTo_intCast 1 50
      simp [hhot, hraw, h50]

/-- Witness for C3: the amended hotspot-set-size formula at the concrete
5-file scenario map. -/
theorem C3_witness :
    (hotspotFiles
      [("a", 40), ("b", 5), ("c", 3), ("d", 2), ("e", 1)]).length =
      max 1 (([("a", 40), ("b", 5), ("c", 3), ("d", 2), ("e", 1)] :
        List (String × ℕ)).length / 5) :=
  C3_amended_hotspot_floor_and_participation.1
    [("a", 40), ("b", 5), ("c", 3), ("d", 2), ("e", 1)] (by simp)

/-- The ascending-sorted consecutive timestamp pairs of one file, as the
spec describes them. -/
def specSortedPairs (l : List ℤ) : List (ℤ × ℤ) :=
  let st := l.mergeSort fun a b => decide (a ≤ b)
  st.zip st.tail

/-- The spec-side rapid-pair count for one file: consecutive
ascending-sorted pairs whose gap is at most 5 days (432000 seconds),
inclusive. -/
def specRapidPairs (l : List ℤ) : ℕ :=
  ((specSortedPairs l).filter fun q => decide (q.2 - q.1 ≤ 432000)).length

theorem rapid_pred_eq (q : ℤ × ℤ) :
    decide (((q.2 - q.1 : ℤ) : ℚ) / 86400 ≤ 5)
      = decide (q.2 - q.1 ≤ 432000) := by
  rw [decide_eq_decide, div_le_iff₀ (by norm_num : (0 : ℚ) < 86400)]
  constructor
  · intro h
    exact_mod_cast h
  · intro h
    exact_mod_cast (by exact_mod_cast h : ((q.2 - q.1 : ℤ) : ℚ) ≤ 432000)

theorem reworkFold_eq (atl : List (String × List ℤ)) :
    reworkFold atl =
      ((atl.map fun p =>
          if 2 ≤ p.2.length then specRapidPairs p.2 else 0).sum,
       (atl.map fun p => p.2.length - 1).sum) := by
  have aux : ∀ (l : List (String × List ℤ)) (acc : ℕ × ℕ),
      l.foldl
        (fun acc p =>
          if p.2.length ≤ 1 then acc
          else
            let st := p.2.mergeSort fun a b => decide (a ≤ b)
            let pairs := st.zip st.tail
            (acc.1 + (pairs.filter fun q =>
                decide (((q.2 - q.1 : ℤ) : ℚ) / 86400 ≤ 5)).length,
             acc.2 + pairs.length))
        acc =
      (acc.1 + (l.map fun p =>
          if 2 ≤ p.2.length then specRapidPairs p.2 else 0).sum,
       acc.2 + (l.map fun p => p.2.length - 1).sum) := by
    intro l
    induction l with
    | nil => intro acc; simp
    | cons p t ih =>
      intro acc
      rw [List.foldl_cons, ih]
      by_cases hlen : p.2.length ≤ 1
      · rw [if_pos hlen, List.map_cons, List.map_cons, List.sum_cons,
          List.sum_cons, if_neg (by omega)]
        have h0 : p.2.length - 1 = 0 := by omega
        rw [h0]
        simp
      · rw [if_neg hlen]
        have hpairs : ((p.2.mergeSort fun a b => decide (a ≤ b)).zip
            (p.2.mergeSort fun a b => decide (a ≤ b)).tail).length
            = p.2.length - 1 := by
          rw [List.length_zip, List.length_tail, List.length_mergeSort]
          omega
        have hrapid : (((p.2.mergeSort fun a b => decide (a ≤ b)).zip
            (p.2.mergeSort fun a b => decide (a ≤ b)).tail).filter fun q =>
              decide (((q.2 - q.1 : ℤ) : ℚ) / 86400 ≤ 5)).length
            = specRapidPairs p.2 := by
          unfold specRapidPairs specSortedPairs
          rw [List.filter_congr fun q _ => rapid_pred_eq q]
        simp only [List.map_cons, List.sum_cons, if_pos (by omega : 2 ≤ p.2.length),
          hpairs, hrapid]
        rw [Prod.mk.injEq]
        exact ⟨by omega, by omega⟩
  rw [reworkFold, aux]
  simp

/-- C4: per author, `rapid_rework_count` sums, over each file touched at
least twice, the ascending-sorted consecutive modification pairs with
gap ≤ 5 days inclusive (a 0-day gap counts, exactly 5 days counts, 5
days + 1 second does not); files modified once contribute no intervals;
`rapid_rework_ratio` is 100 × count / (all such pairs), and 0 when no
file has two modifications. -/
theorem C4_rapid_rework_intervals :
    (∀ atl : List (String × List ℤ),
      (reworkFold atl).1 =
        (atl.map fun p =>
          if 2 ≤ p.2.length then specRapidPairs p.2 else 0).sum ∧
      (reworkFold atl).2 = (atl.map fun p => p.2.length - 1).sum) ∧
    (∀ (commits : List CommitDetail) (af : List (String × ℕ))
        (atl : List (String × List ℤ)) (all : List (String × ℕ))
        (tc ti td : ℕ) (ct : ℤ) (d : AuthorData),
      prepareAuthor commits af atl all tc ti td ct = some d →
      (∀ p ∈ atl, p.2.length ≤ 1) →
      d.rapid_rework_count = 0 ∧ d.rapid_rework_ratio = 0) ∧
    (∀ (commits : List CommitDetail) (af : List (String × ℕ))
        (atl : List (String × List ℤ)) (all : List (String × ℕ))
        (tc ti td : ℕ) (ct : ℤ) (d : AuthorData),
      prepareAuthor commits af atl all tc ti td ct = some d →
      0 < (reworkFold atl).2 →
      d.rapid_rework_ratio =
        roundTo 1 (((reworkFold atl).1 : ℚ) * 100 / (reworkFold atl).2)) ∧
    specRapidPairs [100, 100] = 1 ∧
    specRapidPairs [0, 432000] = 1 ∧
    specRapidPairs [0, 432001] = 0 ∧
    specRapidPairs [7] = 0 := by
  refine ⟨?_, ?_, ?_, ?_, ?_, ?_, ?_⟩
  · intro atl
    rw [reworkFold_eq]
    exact ⟨rfl, rfl⟩
  · intro commits af atl all tc ti td ct d h hshort
    obtain ⟨-, -, -, -, -, -, -, -, -, -, -, -, hratio, hcount, -⟩ :=
      prepareAuthor_eq_some h
    have hz : (reworkFold atl).2 = 0 := by
      rw [reworkFold_eq]
      refine List.sum_eq_zero fun x hx => ?_
      obtain ⟨p, hp, rfl⟩ := List.mem_map.mp hx
      have := hshort p hp
      omega
    have hz1 : (reworkFold atl).1 = 0 := by
      rw [reworkFold_eq]
      refine List.sum_eq_zero fun x hx => ?_
      obtain ⟨p, hp, rfl⟩ := List.mem_map.mp hx
      have := hshort p hp
      rw [if_neg (by omega)]
    refine ⟨by rw [hcount, hz1], ?_⟩
    rw [hratio]
    unfold rapidReworkRatioRaw
    rw [if_neg (by omega), roundTo_zero]
  · intro commits af atl all tc ti td ct d h hpos
    obtain ⟨-, -, -, -, -, -, -, -, -, -, -, -, hratio, -, -⟩ :=
      prepareAuthor_eq_some h
    rw [hratio]
    unfold rapidReworkRatioRaw
    rw [if_pos hpos, div_mul_eq_mul_div]
  · unfold specRapidPairs specSortedPairs
    rw [List.mergeSort_of_sorted (by decide)]
    rfl
  · unfold specRapidPairs specSortedPairs
    rw [List.mergeSort_of_sorted (by decide)]
    rfl
  · unfold specRapidPairs specSortedPairs
    rw [List.mergeSort_of_sorted (by decide)]
    rfl
  · unfold specRapidPairs specSortedPairs
    rw [List.mergeSort_of_sorted (by decide)]
    rfl

/-- Witness for C4: an author whose only file was modified once gets
count 0 and ratio 0. -/
theorem C4_witness :
    (prepareAuthor [⟨0, "m", 1⟩] [] [("a", [5])] [] 1 0 0 0).map
      (·.rapid_rework_count) = some 0 ∧
    (prepareAuthor [⟨0, "m", 1⟩] [] [("a", [5])] [] 1 0 0 0).map
      (·.rapid_rework_ratio) = some 0 := by
  cases hp : prepareAuthor [⟨0, "m", 1⟩] [] [("a", [5])] [] 1 0 0 0 with
  | none => exact absurd hp (by simp [prepareAuthor])
  | some d =>
    obtain ⟨hcount, hratio⟩ :=
      C4_rapid_rework_intervals.2.1 [⟨0, "m", 1⟩] [] [("a", [5])] [] 1 0 0 0
        d hp (by intro p hp'; simp at hp'; subst hp'; simp)
    simp [hcount, hratio]

/-- C5 counterexample: with 2 analyzed commits, 3 global insertions and
3 global deletions, a 1-commit author has commit share 1/2, the claimed
"rounded sum" 3 × 1/2 + 3 × 1/2 = 3 rounds to 3, but the code computes
`int(3 * 0.5) + int(3 * 0.5) = 1 + 1 = 2`. -/
theorem C5_counterexample :
    (prepareAuthor [⟨0, "hello", 1⟩] [] [] [] 2 3 3 0).map
      (·.total_code_changes) = some 2 ∧
    rhe ((3 : ℚ) * ((1 : ℚ) / 2) + (3 : ℚ) * ((1 : ℚ) / 2)) = 3 ∧
    (2 : ℤ) ≠ 3 := by
  refine ⟨?_, ?_, by decide⟩
  · cases hp : prepareAuthor [⟨0, "hello", 1⟩] [] [] [] 2 3 3 0 with
    | none => exact absurd hp (by simp [prepareAuthor])
    | some d =>
      obtain ⟨-, -, -, -, -, -, -, -, -, -, -, htcc, -⟩ :=
        prepareAuthor_eq_some hp
      have hval : authorTotalChanges [⟨0, "hello", 1⟩] 2 3 3 = 2 := by
        unfold authorTotalChanges
        norm_num
      simp [htcc, hval]
  · unfold rhe
    norm_num

/-- C5 (amended): `total_code_changes` is
`⌊insertions × share⌋ + ⌊deletions × share⌋` — each product truncated to
an integer separately (Python `int()`), not the sum rounded — and 0 when
the total analyzed commit count is 0. -/
theorem C5_amended_separate_truncation :
    ∀ (commits : List CommitDetail) (af : List (String × ℕ))
      (atl : List (String × List ℤ)) (all : List (String × ℕ))
      (tc ti td : ℕ) (ct : ℤ) (d : AuthorData),
      prepareAuthor commits af atl all tc ti td ct = some d →
      d.total_code_changes =
        if tc = 0 then 0
        else ((ti * commits.length / tc + td * commits.length / tc : ℕ) :
          ℤ) := by
  intro commits af atl all tc ti td ct d h
  obtain ⟨-, -, -, -, -, -, -, -, -, -, -, htcc, -⟩ := prepareAuthor_eq_some h
  rw [htcc]
  unfold authorTotalChanges
  by_cases htc : tc = 0
  · simp [htc]
  · have hpos : 0 < tc := Nat.pos_of_ne_zero htc
    rw [if_pos hpos, if_pos hpos, if_neg htc]
    have h1 : (ti : ℚ) * ((commits.length : ℚ) / tc)
        = ((ti * commits.length : ℕ) : ℚ) / ((tc : ℕ) : ℚ) := by
      push_cast
      ring
    have h2 : (td : ℚ) * ((commits.length : ℚ) / tc)
        = ((td * commits.length : ℕ) : ℚ) / ((tc : ℕ) : ℚ) := by
      push_cast
      ring
    rw [h1, h2, Rat.floor_natCast_div_natCast, Rat.floor_natCast_div_natCast]
    push_cast [Int.ofNat_tdiv]
    ring

/-- Witness for C5 at a concrete input with a positive commit total. -/
theorem C5_witness :
    (prepareAuthor [⟨0, "hello", 1⟩] [] [] [] 2 3 3 0).map
      (·.total_code_changes) = some 2 := by
  cases hp : prepareAuthor [⟨0, "hello", 1⟩] [] [] [] 2 3 3 0 with
  | none => exact absurd hp (by simp [prepareAuthor])
  | some d =>
    have h := C5_amended_separate_truncation [⟨0, "hello", 1⟩] [] [] [] 2 3 3
      0 d hp
    simp only [Option.map_some', h]
    norm_num

/-- C6 counterexample: an author with 4 commits touching 5 files has raw
average 1.25 files per commit, which the code stores rounded to TWO
decimal places (1.25), while the claim demands one decimal place
(1.2). -/
theorem C6_counterexample :
    (prepareAuthor [⟨0, "m", 2⟩, ⟨86400, "m", 1⟩, ⟨172800, "m", 1⟩,
      ⟨259200, "m", 1⟩] [] [] [] 4 0 0 259200).map
        (·.avg_files_per_commit) = some (5 / 4) ∧
    roundTo 1 ((5 : ℚ) / 4) = 6 / 5 ∧
    ((5 : ℚ) / 4) ≠ 6 / 5 := by
  refine ⟨?_, ?_, by norm_num⟩
  · cases hp : prepareAuthor [⟨0, "m", 2⟩, ⟨86400, "m", 1⟩,
        ⟨172800, "m", 1⟩, ⟨259200, "m", 1⟩] [] [] [] 4 0 0 259200 with
    | none => exact absurd hp (by simp [prepareAuthor])
    | some d =>
      obtain ⟨-, -, -, -, havgf, -⟩ := prepareAuthor_eq_some hp
      have hraw : avgFilesPerCommitRaw [⟨0, "m", 2⟩, ⟨86400, "m", 1⟩,
          ⟨172800, "m", 1⟩, ⟨259200, "m", 1⟩] = 5 / 4 := by
        unfold avgFilesPerCommitRaw
        norm_num
      have hr2 : roundTo 2 ((5 : ℚ) / 4) = 5 / 4 := by
        unfold roundTo rhe
        norm_num
      simp [havgf, hraw, hr2]
  · unfold roundTo rhe
    norm_num

theorem roundTo_den_one (d : ℕ) (q : ℚ) : (roundTo d q * 10 ^ d).den = 1 := by
  unfold roundTo
  rw [div_mul_cancel₀ _ (by positivity : ((10 : ℚ) ^ d) ≠ 0)]
  exact Rat.den_intCast _

/-- C6 (amended): every ratio/average field of the stored bundle is
rounded before storage and before scoring, but to different precisions:
`active_days`, `avg_message_length`, `days_since_last_commit`,
`file_concentration`, `hotspot_participation`, `contribution_ratio` and
`rapid_rework_ratio` carry at most one decimal place, while
`avg_files_per_commit` and `avg_commit_interval` carry up to two. -/
theorem C6_amended_rounding_precisions :
    ∀ (commits : List CommitDetail) (af : List (String × ℕ))
      (atl : List (String × List ℤ)) (all : List (String × ℕ))
      (tc ti td : ℕ) (ct : ℤ) (d : AuthorData),
      prepareAuthor commits af atl all tc ti td ct = some d →
      (d.active_days * 10).den = 1 ∧
      (d.avg_message_length * 10).den = 1 ∧
      (d.days_since_last_commit * 10).den = 1 ∧
      (d.file_concentration * 10).den = 1 ∧
      (d.hotspot_participation * 10).den = 1 ∧
      (d.contribution_ratio * 10).den = 1 ∧
      (d.rapid_rework_ratio * 10).den = 1 ∧
      (d.avg_files_per_commit * 100).den = 1 ∧
      (d.avg_commit_interval * 100).den = 1 ∧
      d.avg_files_per_commit = roundTo 2 (avgFilesPerCommitRaw commits) ∧
      d.avg_commit_interval = roundTo 2 (avgCommitIntervalRaw commits) := by
  intro commits af atl all tc ti td ct d h
  obtain ⟨-, -, -, had, havgf, havgm, hint, hdays, hconc, hhot, hcontrib,
    -, hratio, -, -⟩ := prepareAuthor_eq_some h
  have h10 : ∀ q : ℚ, roundTo 1 q * 10 = roundTo 1 q * 10 ^ 1 := by
    intro q
    norm_num
  have h100 : ∀ q : ℚ, roundTo 2 q * 100 = roundTo 2 q * 10 ^ 2 := by
    intro q
    norm_num
  rw [had, havgf, havgm, hint, hdays, hconc, hhot, hcontrib, hratio]
  refine ⟨?_, ?_, ?_, ?_, ?_, ?_, ?_, ?_, ?_, rfl, rfl⟩ <;>
    first
      | rw [h10 _]; exact roundTo_den_one 1 _
      | rw [h100 _]; exact roundTo_den_one 2 _

/-- Witness for C6 (amended) at a concrete author. -/
theorem C6_witness :
    (prepareAuthor [⟨0, "m", 2⟩, ⟨86400, "m", 1⟩, ⟨172800, "m", 1⟩,
      ⟨259200, "m", 1⟩] [] [] [] 4 0 0 259200).map
        (fun d => (d.avg_files_per_commit * 100).den) = some 1 := by
  cases hp : prepareAuthor [⟨0, "m", 2⟩, ⟨86400, "m", 1⟩,
      ⟨172800, "m", 1⟩, ⟨259200, "m", 1⟩] [] [] [] 4 0 0 259200 with
  | none => exact absurd hp (by simp [prepareAuthor])
  | some d =>
    obtain ⟨-, -, -, -, -, -, -, h100, -⟩ :=
      C6_amended_rounding_precisions [⟨0, "m", 2⟩, ⟨86400, "m", 1⟩,
        ⟨172800, "m", 1⟩, ⟨259200, "m", 1⟩] [] [] [] 4 0 0 259200 d hp
    simp [h100]

end AnalyzeProjectCode
